import Mathlib

/-!
Verification of the advent2023 repository's day-5 "almanac" engine and its
dispatcher, as a shallow embedding in Lean 4.

Conventions of the embedding:
* Rust `u64` values are modelled as `Nat`.  The one place where the 64-bit
  bound is behaviourally visible to the properties under study is
  `str::parse::<u64>`, which fails on values `≥ 2^64`; the embedding's
  `parseU64` checks that bound explicitly.  The constant `u64::MAX`
  (used by the code as a sentinel for the running minimum and the step
  accumulator) is modelled as the literal `2^64 - 1`.
* Rust `Range<u64>` (`start..end`) is modelled by `Range64` with fields
  `start` and `stop` (`stop` is Rust's `end`, which is a Lean keyword).
* A `HashMap` lookup that can panic (`self.maps[&key]`) is modelled in the
  `Option` monad: `none` models the panic.  A lookup through
  `HashMap::get` keeps its `Option` shape.
* The part-2 `while` loop of `Solver::solve` advances its cursor by at
  least 1 on every iteration (proved below), so it performs at most
  `length` iterations on a range `(start, length)`; the loop is embedded
  with an explicit iteration budget (`fuel`) set to `length` by its
  caller, and returns `none` if the budget is exhausted or a table lookup
  panics.
-/

namespace Advent2023

/-- The eight resource kinds of day 5 (`GardenResource` in the source),
an enumerated closed set. -/
inductive GardenResource where
  | Fertilizer
  | Humidity
  | Light
  | Location
  | Seed
  | Soil
  | Temperature
  | Water
deriving DecidableEq, Repr

/-- The fixed conversion pipeline order (the `CONVERSIONS` static). -/
def CONVERSIONS : List GardenResource :=
  [GardenResource.Seed, GardenResource.Soil, GardenResource.Fertilizer,
   GardenResource.Water, GardenResource.Light, GardenResource.Temperature,
   GardenResource.Humidity, GardenResource.Location]

/-- Rust `Range<u64>`: the half-open interval `[start, stop)`.
`stop` is Rust's `end` field. -/
structure Range64 where
  start : Nat
  stop : Nat
deriving DecidableEq, Repr

/-- Rust `Range::contains`. -/
def rangeContains (r : Range64) (v : Nat) : Bool :=
  r.start ≤ v && v < r.stop

/-- One row of a mapping table: the source interval and the destination
start (`(Range<u64>, u64)` in the source). -/
abbrev MapEntry := Range64 × Nat

/-- `u64::MAX`. -/
def U64MAX : Nat := 2 ^ 64 - 1

/-- The `Almanac` struct: the seed list and the mapping tables keyed by
`(source, dest)` kind pairs.  The `HashMap` is modelled as a function to
`Option`; `none` models an absent key. -/
structure Almanac where
  seeds_to_plant : List Nat
  maps : GardenResource → GardenResource → Option (List MapEntry)

/-- Itertools `tuple_windows` specialised to pairs: adjacent pairs of a
list. -/
def tupleWindows {α : Type} : List α → List (α × α)
  | [] => []
  | [_] => []
  | a :: b :: rest => (a, b) :: tupleWindows (b :: rest)

/-- The interior of the first `for` loop of `convert_resource` (and the
value side of the first loop of `optimized_location_for_seed`): scan the
table rows in declaration order, return the offset-adjusted destination
for the first row whose source interval contains `value`, or `value`
unchanged if none does. -/
def convertList : List MapEntry → Nat → Nat
  | [], value => value
  | (srange, dstart) :: rest, value =>
    if rangeContains srange value then dstart + (value - srange.start)
    else convertList rest value

namespace Almanac

/-- `Almanac::convert_resource`: convert `value` from kind `source` to
kind `dest`; an absent table is identity. -/
def convert_resource (a : Almanac) (source dest : GardenResource) (value : Nat) : Nat :=
  match a.maps source dest with
  | some ranges => convertList ranges value
  | none => value

/-- `Almanac::location_for_seed`: fold `convert_resource` over the
adjacent pairs of `CONVERSIONS`. -/
def location_for_seed (a : Almanac) (seed : Nat) : Nat :=
  (tupleWindows CONVERSIONS).foldl
    (fun resource p => a.convert_resource p.1 p.2 resource) seed

end Almanac

/-- The step effect of the first `for` loop of
`optimized_location_for_seed`: on the first row containing `value`,
lower `step` to `srange.end - value` (computed from the pre-conversion
value) and stop scanning. -/
def stageStep1 : List MapEntry → Nat → Nat → Nat
  | [], _, step => step
  | (srange, _) :: rest, value, step =>
    if rangeContains srange value then min step (srange.stop - value)
    else stageStep1 rest value step

/-- The second `for` loop of `optimized_location_for_seed`: for every row
whose source interval starts strictly after `value` (which, in the
source, is the value *after* the first loop possibly converted it), lower
`step` to the distance to that start.  This loop runs unconditionally and
does not break. -/
def stageStep2 : List MapEntry → Nat → Nat → Nat
  | [], _, step => step
  | (srange, _) :: rest, value, step =>
    stageStep2 rest value
      (if value < srange.start then min step (srange.start - value) else step)

/-- The `for_each` of `optimized_location_for_seed` over an arbitrary
list of kind pairs, threading `(value, step)`.  The direct `HashMap`
index `self.maps[&(source, dest)]` panics on an absent key, modelled by
`none`. -/
def pipelineOpt (a : Almanac) : List (GardenResource × GardenResource) → Nat → Nat → Option (Nat × Nat)
  | [], value, step => some (value, step)
  | p :: ps, value, step =>
    match a.maps p.1 p.2 with
    | none => none
    | some range_maps =>
      pipelineOpt a ps (convertList range_maps value)
        (stageStep2 range_maps (convertList range_maps value)
          (stageStep1 range_maps value step))

/-- `Almanac::optimized_location_for_seed`: the location for `seed`
together with the suggested skip distance; `step` starts at `u64::MAX`. -/
def Almanac.optimized_location_for_seed (a : Almanac) (seed : Nat) : Option (Nat × Nat) :=
  pipelineOpt a (tupleWindows CONVERSIONS) seed U64MAX

/-- The fold of `location_for_seed` over an arbitrary list of kind
pairs (so that `location_for_seed` is its instance at
`tupleWindows CONVERSIONS`). -/
def pipelineValue (a : Almanac) (ps : List (GardenResource × GardenResource)) (v : Nat) : Nat :=
  ps.foldl (fun resource p => a.convert_resource p.1 p.2 resource) v

/-- The part-2 `while` loop of `Solver::solve` for one seed range:
starting from cursor `seed`, repeatedly look up
`optimized_location_for_seed`, fold the location into the running
minimum `lowest`, and advance the cursor by `step`, until the cursor
reaches `boundary`.  `fuel` bounds the number of iterations (see the
header comment); `none` models either fuel exhaustion or a table-lookup
panic. -/
def scanLoop (a : Almanac) (boundary : Nat) : Nat → Nat → Nat → Option Nat
  | 0, seed, lowest => if seed < boundary then none else some lowest
  | fuel + 1, seed, lowest =>
    if seed < boundary then
      match a.optimized_location_for_seed seed with
      | none => none
      | some (location, step) =>
        scanLoop a boundary fuel (seed + step)
          (if location < lowest then location else lowest)
    else some lowest

/-- The step-skipping search of `Solver::solve` over a single seed range
`(start, len)`, with the running minimum seeded at `u64::MAX` and an
iteration budget of `len` (sufficient because every step is at least 1,
proved below). -/
def minLocationForRange (a : Almanac) (start len : Nat) : Option Nat :=
  scanLoop a (start + len) len start U64MAX

/-- Itertools `tuples()` specialised to pairs: consecutive
non-overlapping pairs, dropping a trailing odd element. -/
def seedPairs : List Nat → List (Nat × Nat)
  | a :: b :: rest => (a, b) :: seedPairs rest
  | _ => []

/-- The outer `for` loop of `Solver::solve` part 2: thread the running
minimum through the step-skipping scan of every seed range. -/
def rangesLoop (a : Almanac) : List (Nat × Nat) → Nat → Option Nat
  | [], lowest => some lowest
  | (seed_start, length) :: rest, lowest =>
    match scanLoop a (seed_start + length) length seed_start lowest with
    | none => none
    | some lowest2 => rangesLoop a rest lowest2

/-- The part-2 answer of `Solver::solve`: the lowest location over the
seed ranges obtained by pairing consecutive seed numbers. -/
def part2LowestLocation (a : Almanac) : Option Nat :=
  rangesLoop a (seedPairs a.seeds_to_plant) U64MAX

/-- Modelled from the spec (§4.5 / §8): exhaustive per-value scanning of
a seed range — the same minimum-tracking loop but advancing the cursor
by exactly 1, calling `location_for_seed` on every seed of
`[seed, seed + n)`.  This is the specification side of the refinement
claim; the step-skipping `scanLoop` is the code side. -/
def rangeMinFrom (a : Almanac) : Nat → Nat → Nat → Nat
  | _, 0, lowest => lowest
  | seed, n + 1, lowest =>
    rangeMinFrom a (seed + 1) n
      (if a.location_for_seed seed < lowest then a.location_for_seed seed else lowest)

/-- All seven adjacent-pair tables of the conversion pipeline are
present in the almanac's map. -/
def allPairsPresent (a : Almanac) : Prop :=
  ∀ p ∈ tupleWindows CONVERSIONS, (a.maps p.1 p.2).isSome

instance (a : Almanac) : Decidable (allPairsPresent a) := by
  unfold allPairsPresent; infer_instance

/-- Every mapping table of the almanac has pairwise non-overlapping
source intervals (the spec's §3 non-overlap assumption). -/
def tablesDisjoint (a : Almanac) : Prop :=
  ∀ source dest ranges, a.maps source dest = some ranges →
    ranges.Pairwise (fun e1 e2 => ∀ x, ¬(rangeContains e1.1 x ∧ rangeContains e2.1 x))

/-! ### The input parser (`Almanac::new`) -/

/-- Regex class `[0-9]`. -/
def isDigitChar (c : Char) : Bool := '0' ≤ c && c ≤ '9'

/-- Regex class `[a-z]`. -/
def isLowerChar (c : Char) : Bool := 'a' ≤ c && c ≤ 'z'

/-- Numeric value of a digit run. -/
def digitsToNat (l : List Char) : Nat :=
  l.foldl (fun acc c => 10 * acc + (c.toNat - '0'.toNat)) 0

/-- Rust `str::parse::<u64>` on a run of digits: the numeric value when
it fits in 64 bits, failure otherwise. -/
def parseU64 (l : List Char) : Option Nat :=
  if digitsToNat l < 2 ^ 64 then some (digitsToNat l) else none

/-- Strip an expected literal prefix, returning the remainder. -/
def stripLit : List Char → List Char → Option (List Char)
  | [], l => some l
  | _ :: _, [] => none
  | p :: ps, c :: cs => if c = p then stripLit ps cs else none

/-- The longest prefix of characters satisfying `p`, and the rest (the
behaviour of a greedy character-class match such as `[a-z]+`). -/
def spanP (p : Char → Bool) : List Char → List Char × List Char
  | [] => ([], [])
  | c :: cs =>
    if p c then (c :: (spanP p cs).1, (spanP p cs).2) else ([], c :: cs)

/-- Rust's `collect::<Result<Vec<u64>, _>>` over token-wise `u64`
parses. -/
def parseU64List : List (List Char) → Option (List Nat)
  | [] => some []
  | t :: ts =>
    match parseU64 t, parseU64List ts with
    | some v, some vs => some (v :: vs)
    | _, _ => none

/-- Rust `str::split_whitespace` on a line of digits and blanks,
accumulator form. -/
def splitTokensAux : List Char → List Char → List (List Char)
  | [], acc => if acc = [] then [] else [acc.reverse]
  | c :: cs, acc =>
    if c = ' ' then
      if acc = [] then splitTokensAux cs [] else acc.reverse :: splitTokensAux cs []
    else splitTokensAux cs (c :: acc)

/-- Rust `str::split_whitespace`. -/
def splitTokens (l : List Char) : List (List Char) := splitTokensAux l []

/-- The regex `^seeds: (?P<seeds>[0-9 ]+)$`: the captured `seeds` group
when the line matches, `none` otherwise (a purely syntactic check). -/
def seedsRest (l : List Char) : Option (List Char) :=
  match stripLit (String.toList "seeds: ") l with
  | none => none
  | some rest =>
    if rest ≠ [] ∧ rest.all (fun c => isDigitChar c || c = ' ') then some rest
    else none

/-- The seeds line handling: the regex capture followed by parsing every
whitespace-separated token as a `u64`; `none` on a shape mismatch or an
out-of-range number. -/
def parseSeedsLine (l : List Char) : Option (List Nat) :=
  match seedsRest l with
  | none => none
  | some rest => parseU64List (splitTokens rest)

/-- The regex `^(?P<source>[a-z]+)-to-(?P<dest>[a-z]+) map:` (anchored
only at the start): the two captured lowercase runs. -/
def parseMapHeader (l : List Char) : Option (List Char × List Char) :=
  match spanP isLowerChar l with
  | (src, rest1) =>
    if src = [] then none else
    match stripLit (String.toList "-to-") rest1 with
    | none => none
    | some rest2 =>
      match spanP isLowerChar rest2 with
      | (dst, rest3) =>
        if dst = [] then none else
        match stripLit (String.toList " map:") rest3 with
        | none => none
        | some _ => some (src, dst)

/-- Strum's lowercase `EnumString` conversion for `GardenResource`. -/
def parseResource (l : List Char) : Option GardenResource :=
  if l = String.toList "fertilizer" then some GardenResource.Fertilizer
  else if l = String.toList "humidity" then some GardenResource.Humidity
  else if l = String.toList "light" then some GardenResource.Light
  else if l = String.toList "location" then some GardenResource.Location
  else if l = String.toList "seed" then some GardenResource.Seed
  else if l = String.toList "soil" then some GardenResource.Soil
  else if l = String.toList "temperature" then some GardenResource.Temperature
  else if l = String.toList "water" then some GardenResource.Water
  else none

/-- The regex `^(?P<dest>\d+) (?P<source>\d+) (?P<len>\d+)$`: the three
captured digit runs when the line matches (a purely syntactic check). -/
def rowCaptures (l : List Char) : Option (List Char × List Char × List Char) :=
  match spanP isDigitChar l with
  | (d1, rest1) =>
    if d1 = [] then none else
    match rest1 with
    | ' ' :: rest1' =>
      match spanP isDigitChar rest1' with
      | (d2, rest2) =>
        if d2 = [] then none else
        match rest2 with
        | ' ' :: rest2' =>
          match spanP isDigitChar rest2' with
          | (d3, rest3) =>
            if d3 = [] ∨ rest3 ≠ [] then none else some (d1, d2, d3)
        | _ => none
    | _ => none

/-- The map-row handling: the regex captures followed by the three `u64`
parses, giving `(dest, source, len)` on success. -/
def parseMapRow (l : List Char) : Option (Nat × Nat × Nat) :=
  match rowCaptures l with
  | none => none
  | some (d1, d2, d3) =>
    match parseU64 d1, parseU64 d2, parseU64 d3 with
    | some dv, some sv, some lv => some (dv, sv, lv)
    | _, _, _ => none

/-- The parser state local to `Almanac::new`: the almanac fields under
construction plus the active `(current_source, current_dest)` pair. -/
structure PState where
  seeds : List Nat
  maps : GardenResource → GardenResource → Option (List MapEntry)
  current : Option (GardenResource × GardenResource)

/-- `maps.entry((source, dest)).or_default().push(entry)`. -/
def mapsInsert (m : GardenResource → GardenResource → Option (List MapEntry))
    (source dest : GardenResource) (entry : MapEntry) :
    GardenResource → GardenResource → Option (List MapEntry) :=
  fun s d =>
    if s = source ∧ d = dest then some ((m source dest).getD [] ++ [entry])
    else m s d

/-- One iteration of the line loop of `Almanac::new`: blank lines clear
the active pair; otherwise the three regexes are tried in order and a
line matching none of them, a header with an unrecognized kind, a data
row with no active pair, or an out-of-range number is an error
(`none`). -/
def processLine (st : PState) (l : List Char) : Option PState :=
  if l = [] then some { st with current := none }
  else
    match parseSeedsLine l with
    | some ns => some { st with seeds := ns }
    | none =>
      match parseMapHeader l with
      | some (src, dst) =>
        match parseResource src, parseResource dst with
        | some source, some dest => some { st with current := some (source, dest) }
        | _, _ => none
      | none =>
        match parseMapRow l with
        | some (d_start, s_start, len) =>
          match st.current with
          | some (source, dest) =>
            some { st with
                   maps := mapsInsert st.maps source dest (⟨s_start, s_start + len⟩, d_start) }
          | none => none
        | none => none

/-- The line loop of `Almanac::new`. -/
def parseLines (st : PState) : List (List Char) → Option PState
  | [] => some st
  | l :: rest =>
    match processLine st l with
    | none => none
    | some st2 => parseLines st2 rest

/-- `Almanac::new`: fold the line loop from the empty state and package
the accumulated fields; `none` models the `Err` return. -/
def Almanac.new (input : List String) : Option Almanac :=
  match parseLines ⟨[], fun _ _ => none, none⟩ (input.map String.toList) with
  | none => none
  | some st => some ⟨st.seeds, st.maps⟩

/-! ### Claim-side classification of input lines (claim C8)

The claim describes when `Almanac::new` fails purely in terms of line
shapes and the active-pair state; the classifiers below follow its
words, threading only the active kind pair. -/

/-- The line matches the seeds-declaration shape. -/
def seedsShape (l : List Char) : Bool := (seedsRest l).isSome

/-- The line matches the three-integer data-row shape. -/
def rowShape (l : List Char) : Bool := (rowCaptures l).isSome

/-- Every whitespace-separated token of the captured seeds group is a
64-bit number. -/
def seedsInRange (l : List Char) : Bool :=
  match seedsRest l with
  | some rest => (splitTokens rest).all (fun t => digitsToNat t < 2 ^ 64)
  | none => false

/-- Each of the three captured integers of a data row is a 64-bit
number. -/
def rowInRange (l : List Char) : Bool :=
  match rowCaptures l with
  | some (d1, d2, d3) =>
    digitsToNat d1 < 2 ^ 64 && digitsToNat d2 < 2 ^ 64 && digitsToNat d3 < 2 ^ 64
  | none => false

/-- Modelled from the spec (claim C8 as stated): acceptability of one
line given the active kind pair, returning the new active pair.  A
blank line clears the pair; a seeds declaration and a data row keep it;
a map header whose two names are recognized kinds sets it; a data row
with no active pair, a header with an unrecognized kind, and a line
matching no shape are errors. -/
def lineOkClaim (cur : Option (GardenResource × GardenResource)) (l : List Char) :
    Option (Option (GardenResource × GardenResource)) :=
  if l = [] then some none
  else if seedsShape l then some cur
  else
    match parseMapHeader l with
    | some (src, dst) =>
      match parseResource src, parseResource dst with
      | some source, some dest => some (some (source, dest))
      | _, _ => none
    | none =>
      if rowShape l then (if cur.isSome then some cur else none) else none

/-- Modelled from the spec (claim C8 as stated): the whole input is
error-free. -/
def goodInputClaim : Option (GardenResource × GardenResource) → List (List Char) → Bool
  | _, [] => true
  | cur, l :: rest =>
    match lineOkClaim cur l with
    | none => false
    | some cur2 => goodInputClaim cur2 rest

/-- Acceptability of one line as amended: in addition to the conditions
of `lineOkClaim`, every integer of a seeds declaration or data row must
fit in 64 bits (Rust's `parse::<u64>` rejects larger values). -/
def lineOkAmended (cur : Option (GardenResource × GardenResource)) (l : List Char) :
    Option (Option (GardenResource × GardenResource)) :=
  if l = [] then some none
  else if seedsShape l then (if seedsInRange l then some cur else none)
  else
    match parseMapHeader l with
    | some (src, dst) =>
      match parseResource src, parseResource dst with
      | some source, some dest => some (some (source, dest))
      | _, _ => none
    | none =>
      if rowShape l then
        (if rowInRange l && cur.isSome then some cur else none)
      else none

/-- Error-freedom of the whole input, as amended. -/
def goodInputAmended : Option (GardenResource × GardenResource) → List (List Char) → Bool
  | _, [] => true
  | cur, l :: rest =>
    match lineOkAmended cur l with
    | none => false
    | some cur2 => goodInputAmended cur2 rest

/-! ### The dispatcher (`advent::solve`) and entry point (`main`) -/

/-- The set of day numbers with a registered solver in `advent::solve`. -/
def implementedDays : List Nat := [1, 2, 3, 4, 5, 6]

/-- `advent::solve`, abstracted over the behaviour of the individual
solvers (`runSolver day` stands for building day `day`'s solver and
running it on its conventional input path): an unknown day returns a
descriptive error before any solver is constructed or invoked. -/
def adventSolve (runSolver : Nat → Except String Unit) (day : Nat) : Except String Unit :=
  match day with
  | 1 => runSolver 1
  | 2 => runSolver 2
  | 3 => runSolver 3
  | 4 => runSolver 4
  | 5 => runSolver 5
  | 6 => runSolver 6
  | _ => Except.error ("Day " ++ toString day ++ " not implemented.")

/-- The `main` function: the lines it prints, as a pure function of the
parsed `--day` argument and the solver behaviour.  An `Err` from the
dispatcher is printed as an `error:` line and `main` returns normally. -/
def mainOutput (runSolver : Nat → Except String Unit) (day : Option Nat) : List String :=
  match day with
  | some d =>
    match adventSolve runSolver d with
    | Except.ok _ => []
    | Except.error e => ["error: " ++ e]
  | none => ["--day is required"]

/-! ### Specification-side definitions used by individual claims -/

/-- First table row whose source interval contains `v` (declaration
order), the row scanned for by the first loops of `convert_resource` and
`optimized_location_for_seed`. -/
def firstContainingEntry : List MapEntry → Nat → Option MapEntry
  | [], _ => none
  | e :: rest, v => if rangeContains e.1 v then some e else firstContainingEntry rest v

/-- Forward distances from `v` to the starts of the intervals of a table
that begin strictly after `v`. -/
def afterStarts (ranges : List MapEntry) (v : Nat) : List Nat :=
  ranges.filterMap (fun e => if v < e.1.start then some (e.1.start - v) else none)

/-- Modelled from the spec (§4.4, claim C2 as stated): the
behaviour-change distances contributed by one pipeline stage whose
source value is `v` — the distance to the end of the containing
interval when one contains `v`, otherwise the distances to the starts
of the intervals beginning after `v` (their minimum is the distance to
the nearest one). -/
def specStageDists (ranges : List MapEntry) (v : Nat) : List Nat :=
  match firstContainingEntry ranges v with
  | some e => [e.1.stop - v]
  | none => afterStarts ranges v

/-- Modelled from the spec (claim C2 as stated): the stage distances of
the whole pipeline, threading the stage source values with
`convert_resource`. -/
def specStepDists (a : Almanac) : List (GardenResource × GardenResource) → Nat → List Nat
  | [], _ => []
  | p :: ps, v =>
    (match a.maps p.1 p.2 with
     | none => []
     | some ranges => specStageDists ranges v) ++
    specStepDists a ps (a.convert_resource p.1 p.2 v)

/-- Modelled from the spec (claim C2 as stated): the minimum stage
distance across the pipeline, `u64::MAX` when no stage contributes. -/
def specStepClaim (a : Almanac) (seed : Nat) : Nat :=
  (specStepDists a (tupleWindows CONVERSIONS) seed).foldl min U64MAX

/-- The stage distances as the code actually computes them: the
end-of-containing-interval distance is measured from the stage's source
value, but the interval-start distances are measured from the stage's
*post-conversion* value and are collected whether or not an interval
contained the source value. -/
def stageDistsAmended (ranges : List MapEntry) (v : Nat) : List Nat :=
  (match firstContainingEntry ranges v with
   | some e => [e.1.stop - v]
   | none => []) ++ afterStarts ranges (convertList ranges v)

/-- The amended stage distances of the whole pipeline. -/
def stepDistsAmended (a : Almanac) : List (GardenResource × GardenResource) → Nat → List Nat
  | [], _ => []
  | p :: ps, v =>
    (match a.maps p.1 p.2 with
     | none => []
     | some ranges => stageDistsAmended ranges v) ++
    stepDistsAmended a ps (a.convert_resource p.1 p.2 v)

/-- The amended step: the minimum amended stage distance across the
pipeline, `u64::MAX` when no stage contributes. -/
def specStepAmended (a : Almanac) (seed : Nat) : Nat :=
  (stepDistsAmended a (tupleWindows CONVERSIONS) seed).foldl min U64MAX

/-! ### Concrete almanacs used by counterexamples and witnesses -/

/-- A map assignment with a designated seed-to-soil table and every
other table present but empty. -/
def mapsWithSeedTable (tbl : List MapEntry) :
    GardenResource → GardenResource → Option (List MapEntry) :=
  fun s d =>
    if s = GardenResource.Seed ∧ d = GardenResource.Soil then some tbl else some []

/-- Almanac whose seed-to-soil table has two *overlapping* intervals,
the wider one declared second: `[10,20) ↦ 0` then `[0,100) ↦ 1000`. -/
def almanacOverlap : Almanac :=
  ⟨[], mapsWithSeedTable [(⟨10, 20⟩, 0), (⟨0, 100⟩, 1000)]⟩

/-- Almanac whose seed-to-soil table is `[50,60) ↦ 0` then
`[7,8) ↦ 7` (disjoint intervals). -/
def almanacStepSpy : Almanac :=
  ⟨[], mapsWithSeedTable [(⟨50, 60⟩, 0), (⟨7, 8⟩, 7)]⟩

/-- Almanac with no tables at all. -/
def almanacEmpty : Almanac := ⟨[], fun _ _ => none⟩

/-- Almanac with every table present and equal to the single-interval
table `[0,1000) ↦ 0`. -/
def almanacUniform : Almanac := ⟨[], fun _ _ => some [(⟨0, 1000⟩, 0)]⟩

/-- The worked-example fixture (`EX_IN` in the day-5 tests). -/
def exampleInput : List String := [
  "seeds: 79 14 55 13",
  "",
  "seed-to-soil map:",
  "50 98 2",
  "52 50 48",
  "",
  "soil-to-fertilizer map:",
  "0 15 37",
  "37 52 2",
  "39 0 15",
  "",
  "fertilizer-to-water map:",
  "49 53 8",
  "0 11 42",
  "42 0 7",
  "57 7 4",
  "",
  "water-to-light map:",
  "88 18 7",
  "18 25 70",
  "",
  "light-to-temperature map:",
  "45 77 23",
  "81 45 19",
  "68 64 13",
  "",
  "temperature-to-humidity map:",
  "0 69 1",
  "1 0 69",
  "",
  "humidity-to-location map:",
  "60 56 37",
  "56 93 4"]

/-! ## Helper lemmas -/

theorem rangeContains_iff (r : Range64) (v : Nat) :
    rangeContains r v = true ↔ r.start ≤ v ∧ v < r.stop := by
  simp [rangeContains]

theorem convertList_eq_first (ranges : List MapEntry) (v : Nat) :
    convertList ranges v =
      match firstContainingEntry ranges v with
      | some e => e.2 + (v - e.1.start)
      | none => v := by
  induction ranges with
  | nil => rfl
  | cons e rest ih =>
    obtain ⟨r, dstart⟩ := e
    by_cases h : rangeContains r v
    · simp [convertList, firstContainingEntry, h]
    · simp only [convertList, firstContainingEntry, h]
      simpa using ih

theorem convertList_of_first {ranges : List MapEntry} {v : Nat} {e : MapEntry}
    (hfc : firstContainingEntry ranges v = some e) :
    convertList ranges v = e.2 + (v - e.1.start) := by
  rw [convertList_eq_first, hfc]

theorem convertList_of_none {ranges : List MapEntry} {v : Nat}
    (hfc : firstContainingEntry ranges v = none) :
    convertList ranges v = v := by
  rw [convertList_eq_first, hfc]

theorem convertList_id_of_none (ranges : List MapEntry) (v : Nat)
    (h : ∀ e ∈ ranges, rangeContains e.1 v = false) : convertList ranges v = v := by
  induction ranges with
  | nil => rfl
  | cons e rest ih =>
    obtain ⟨r, dstart⟩ := e
    have hr := h (r, dstart) (List.mem_cons_self _ _)
    simp only [convertList, hr]
    simp only [Bool.false_eq_true, if_false]
    exact ih (fun e' h' => h e' (List.mem_cons_of_mem _ h'))

theorem convertList_first_match (l1 l2 : List MapEntry) (r : Range64) (dstart v : Nat)
    (hbefore : ∀ e ∈ l1, rangeContains e.1 v = false)
    (hin : rangeContains r v = true) :
    convertList (l1 ++ (r, dstart) :: l2) v = dstart + (v - r.start) := by
  induction l1 with
  | nil => simp [convertList, hin]
  | cons e rest ih =>
    obtain ⟨r0, d0⟩ := e
    have he := hbefore (r0, d0) (List.mem_cons_self _ _)
    simp only [List.cons_append, convertList, he]
    simp only [Bool.false_eq_true, if_false]
    exact ih (fun e' h' => hbefore e' (List.mem_cons_of_mem _ h'))

theorem firstContainingEntry_mem {ranges : List MapEntry} {v : Nat} {e : MapEntry}
    (h : firstContainingEntry ranges v = some e) : e ∈ ranges := by
  induction ranges with
  | nil => exact absurd h (by simp [firstContainingEntry])
  | cons e0 rest ih =>
    by_cases h0 : rangeContains e0.1 v
    · simp only [firstContainingEntry, h0, if_true, Option.some.injEq] at h
      exact h ▸ List.mem_cons_self _ _
    · simp only [firstContainingEntry, h0] at h
      simp only [Bool.false_eq_true, if_false] at h
      exact List.mem_cons_of_mem _ (ih h)

theorem firstContainingEntry_contains {ranges : List MapEntry} {v : Nat} {e : MapEntry}
    (h : firstContainingEntry ranges v = some e) : rangeContains e.1 v = true := by
  induction ranges with
  | nil => exact absurd h (by simp [firstContainingEntry])
  | cons e0 rest ih =>
    by_cases h0 : rangeContains e0.1 v
    · simp only [firstContainingEntry, h0, if_true, Option.some.injEq] at h
      exact h ▸ h0
    · simp only [firstContainingEntry, h0] at h
      simp only [Bool.false_eq_true, if_false] at h
      exact ih h

theorem firstContainingEntry_none {ranges : List MapEntry} {v : Nat}
    (h : firstContainingEntry ranges v = none) :
    ∀ e ∈ ranges, rangeContains e.1 v = false := by
  induction ranges with
  | nil => intro e he; exact absurd he (List.not_mem_nil e)
  | cons e0 rest ih =>
    by_cases h0 : rangeContains e0.1 v
    · simp [firstContainingEntry, h0] at h
    · simp only [firstContainingEntry, h0] at h
      simp only [Bool.false_eq_true, if_false] at h
      intro e he
      rcases List.mem_cons.mp he with he0 | hrest
      · exact he0 ▸ (by simpa using h0)
      · exact ih h e hrest

/-! ## Claim C4: identity fallback outside every interval -/

/-- C4: for every kind pair and every value outside every interval of
that pair's table (including an absent table), `convert_resource`
returns the value unchanged. -/
theorem convert_identity_outside_intervals (a : Almanac) (source dest : GardenResource) (v : Nat)
    (h : ∀ ranges, a.maps source dest = some ranges → ∀ e ∈ ranges, rangeContains e.1 v = false) :
    a.convert_resource source dest v = v := by
  unfold Almanac.convert_resource
  cases hm : a.maps source dest with
  | none => rfl
  | some ranges => exact convertList_id_of_none ranges v (h ranges hm)

/-- Witness for C4 at a concrete almanac and value. -/
theorem convert_identity_outside_intervals_witness :
    Almanac.convert_resource almanacUniform GardenResource.Seed GardenResource.Soil 2000 = 2000 :=
  convert_identity_outside_intervals almanacUniform GardenResource.Seed GardenResource.Soil 2000
    (by
      intro ranges h
      simp only [almanacUniform] at h
      cases h
      intro e he
      simp only [List.mem_singleton] at he
      subst he
      decide)

/-! ## Claim C5: offset conversion by the first matching interval -/

/-- C5: if the table for a kind pair is `l1 ++ (r, dstart) :: l2` where
no interval of `l1` contains `v` and `r = [S, S+L)` does, then
`convert_resource` returns `dstart + (v - S)` — the first interval in
declaration order wins, which in particular covers the case of a value
inside exactly one declared interval. -/
theorem convert_first_matching_interval (a : Almanac) (source dest : GardenResource)
    (l1 l2 : List MapEntry) (r : Range64) (dstart v : Nat)
    (hmap : a.maps source dest = some (l1 ++ (r, dstart) :: l2))
    (hbefore : ∀ e ∈ l1, rangeContains e.1 v = false)
    (hin : rangeContains r v = true) :
    a.convert_resource source dest v = dstart + (v - r.start) := by
  unfold Almanac.convert_resource
  rw [hmap]
  exact convertList_first_match l1 l2 r dstart v hbefore hin

/-- Witness for C5 on a two-row table, matching the second row. -/
theorem convert_first_matching_interval_witness :
    Almanac.convert_resource almanacStepSpy GardenResource.Seed GardenResource.Soil 7 =
      7 + (7 - 7) :=
  convert_first_matching_interval almanacStepSpy GardenResource.Seed GardenResource.Soil
    [(⟨50, 60⟩, 0)] [] ⟨7, 8⟩ 7 7 (by decide)
    (by intro e he; simp only [List.mem_singleton] at he; subst he; decide)
    (by decide)

/-! ## Claim C7: locate is the sevenfold composition of convert -/

/-- C7: `location_for_seed` is exactly the composition of
`convert_resource` across the seven adjacent transitions of the fixed
kind sequence, for every almanac (whatever its tables) and every
seed. -/
theorem locate_folds_seven_transitions (a : Almanac) (seed : Nat) :
    a.location_for_seed seed =
      a.convert_resource GardenResource.Humidity GardenResource.Location
        (a.convert_resource GardenResource.Temperature GardenResource.Humidity
          (a.convert_resource GardenResource.Light GardenResource.Temperature
            (a.convert_resource GardenResource.Water GardenResource.Light
              (a.convert_resource GardenResource.Fertilizer GardenResource.Water
                (a.convert_resource GardenResource.Soil GardenResource.Fertilizer
                  (a.convert_resource GardenResource.Seed GardenResource.Soil seed)))))) := rfl

/-! ## Claim C10: the all-tables precondition of the optimized lookup -/

theorem pipelineOpt_isSome (a : Almanac) :
    ∀ ps : List (GardenResource × GardenResource), (∀ p ∈ ps, (a.maps p.1 p.2).isSome) →
      ∀ v step, (pipelineOpt a ps v step).isSome := by
  intro ps
  induction ps with
  | nil => intro _ v step; simp [pipelineOpt]
  | cons p rest ih =>
    intro h v step
    cases hm : a.maps p.1 p.2 with
    | none =>
      have := h p (List.mem_cons_self _ _)
      rw [hm] at this
      exact absurd this (by simp)
    | some ranges =>
      simp only [pipelineOpt, hm]
      exact ih (fun q hq => h q (List.mem_cons_of_mem _ hq)) _ _

/-- C10: with all seven adjacent-pair tables present the direct table
lookup of `optimized_location_for_seed` never fails; for an almanac
missing tables it fails (`none` models the `HashMap` index panic);
`location_for_seed` needs no such precondition because
`convert_resource` treats an absent table as identity. -/
theorem optimized_requires_all_tables :
    (∀ (a : Almanac) (seed : Nat), allPairsPresent a →
      (a.optimized_location_for_seed seed).isSome) ∧
    almanacEmpty.optimized_location_for_seed 0 = none ∧
    (∀ (a : Almanac) (source dest : GardenResource) (v : Nat),
      a.maps source dest = none → a.convert_resource source dest v = v) := by
  refine ⟨?_, rfl, ?_⟩
  · intro a seed h
    exact pipelineOpt_isSome a (tupleWindows CONVERSIONS) h seed U64MAX
  · intro a source dest v h
    unfold Almanac.convert_resource
    rw [h]

/-- Witness for C10 at concrete almanacs. -/
theorem optimized_requires_all_tables_witness :
    (almanacUniform.optimized_location_for_seed 0).isSome ∧
    Almanac.convert_resource almanacEmpty GardenResource.Seed GardenResource.Soil 3 = 3 :=
  ⟨optimized_requires_all_tables.1 almanacUniform 0 (by decide),
   optimized_requires_all_tables.2.2 almanacEmpty GardenResource.Seed GardenResource.Soil 3 rfl⟩

/-! ## Claim C9: unknown day identifiers -/

/-- C9: a day outside the implemented set makes the dispatcher return a
descriptive error naming the day — whatever the individual solvers
would do, so no solver is invoked — and `main` prints that error and
returns normally with the dispatch outcome being a failure. -/
theorem unknown_day_dispatch_error (runSolver : Nat → Except String Unit) (day : Nat)
    (h : day ∉ implementedDays) :
    adventSolve runSolver day =
      Except.error ("Day " ++ toString day ++ " not implemented.") ∧
    mainOutput runSolver (some day) =
      ["error: " ++ ("Day " ++ toString day ++ " not implemented.")] ∧
    (adventSolve runSolver day).isOk = false := by
  have h' : day ≠ 1 ∧ day ≠ 2 ∧ day ≠ 3 ∧ day ≠ 4 ∧ day ≠ 5 ∧ day ≠ 6 := by
    simpa [implementedDays] using h
  obtain ⟨h1, h2, h3, h4, h5, h6⟩ := h'
  match day, h1, h2, h3, h4, h5, h6 with
  | 0, _, _, _, _, _, _ => exact ⟨rfl, rfl, rfl⟩
  | 1, h1, _, _, _, _, _ => exact absurd rfl h1
  | 2, _, h2, _, _, _, _ => exact absurd rfl h2
  | 3, _, _, h3, _, _, _ => exact absurd rfl h3
  | 4, _, _, _, h4, _, _ => exact absurd rfl h4
  | 5, _, _, _, _, h5, _ => exact absurd rfl h5
  | 6, _, _, _, _, _, h6 => exact absurd rfl h6
  | n + 7, _, _, _, _, _, _ => exact ⟨rfl, rfl, rfl⟩

/-- Witness for C9 at day 25. -/
theorem unknown_day_dispatch_error_witness :
    adventSolve (fun _ => Except.ok ()) 25 =
      Except.error ("Day " ++ toString 25 ++ " not implemented.") ∧
    mainOutput (fun _ => Except.ok ()) (some 25) =
      ["error: " ++ ("Day " ++ toString 25 ++ " not implemented.")] ∧
    (adventSolve (fun _ => Except.ok ()) 25).isOk = false :=
  unknown_day_dispatch_error (fun _ => Except.ok ()) 25 (by decide)

/-! ## Claim C2: the step computation -/

theorem stageStep1_eq (ranges : List MapEntry) (v step : Nat) :
    stageStep1 ranges v step =
      match firstContainingEntry ranges v with
      | some e => min step (e.1.stop - v)
      | none => step := by
  induction ranges with
  | nil => rfl
  | cons e rest ih =>
    obtain ⟨r, d⟩ := e
    by_cases h : rangeContains r v
    · simp [stageStep1, firstContainingEntry, h]
    · simp only [stageStep1, firstContainingEntry, h]
      simpa using ih

theorem afterStarts_cons (r : Range64) (d : Nat) (rest : List MapEntry) (v : Nat) :
    afterStarts ((r, d) :: rest) v =
      if v < r.start then (r.start - v) :: afterStarts rest v else afterStarts rest v := by
  by_cases h : v < r.start <;> simp [afterStarts, List.filterMap_cons, h]

theorem stageStep2_eq (ranges : List MapEntry) (v : Nat) :
    ∀ step, stageStep2 ranges v step = (afterStarts ranges v).foldl min step := by
  induction ranges with
  | nil => intro step; rfl
  | cons e rest ih =>
    intro step
    obtain ⟨r, d⟩ := e
    rw [afterStarts_cons]
    by_cases h : v < r.start
    · rw [if_pos h]
      simp only [stageStep2, if_pos h, List.foldl_cons]
      exact ih _
    · rw [if_neg h]
      simp only [stageStep2, if_neg h]
      exact ih _

theorem pipelineValue_cons (a : Almanac) (p : GardenResource × GardenResource)
    (rest : List (GardenResource × GardenResource)) (v : Nat) :
    pipelineValue a (p :: rest) v = pipelineValue a rest (a.convert_resource p.1 p.2 v) := rfl

theorem pipelineOpt_amended (a : Almanac) :
    ∀ ps : List (GardenResource × GardenResource), (∀ p ∈ ps, (a.maps p.1 p.2).isSome) →
      ∀ v step, pipelineOpt a ps v step =
        some (pipelineValue a ps v, (stepDistsAmended a ps v).foldl min step) := by
  intro ps
  induction ps with
  | nil => intro _ v step; rfl
  | cons p rest ih =>
    intro h v step
    cases hm : a.maps p.1 p.2 with
    | none =>
      have := h p (List.mem_cons_self _ _)
      rw [hm] at this
      exact absurd this (by simp)
    | some ranges =>
      have hcv : a.convert_resource p.1 p.2 v = convertList ranges v := by
        unfold Almanac.convert_resource; rw [hm]
      simp only [pipelineOpt, hm]
      rw [ih (fun q hq => h q (List.mem_cons_of_mem _ hq))]
      rw [pipelineValue_cons, hcv]
      simp only [stepDistsAmended, hm, stageDistsAmended, List.foldl_append]
      rw [stageStep2_eq, stageStep1_eq]
      cases hfc : firstContainingEntry ranges v with
      | some e => rw [hcv]; simp
      | none => rw [hcv]; simp

/-- C2 (amended): with all seven tables present, the step returned by
`optimized_location_for_seed` is the minimum (with base `u64::MAX`)
over the pipeline stages of: the distance to the end of the first
interval containing the stage's source value when one contains it,
together with the distances to the starts of the intervals beginning
strictly after the stage's *post-conversion* value — the latter
collected whether or not an interval contained the source value. -/
theorem optimized_step_eq_amended_dists (a : Almanac) (seed : Nat) (h : allPairsPresent a) :
    a.optimized_location_for_seed seed =
      some (a.location_for_seed seed, specStepAmended a seed) :=
  pipelineOpt_amended a (tupleWindows CONVERSIONS) h seed U64MAX

/-- Witness for the amended C2 at a concrete almanac and seed. -/
theorem optimized_step_eq_amended_dists_witness :
    almanacUniform.optimized_location_for_seed 3 =
      some (almanacUniform.location_for_seed 3, specStepAmended almanacUniform 3) :=
  optimized_step_eq_amended_dists almanacUniform 3 (by decide)

/-- Counterexample to C2 as stated: on an almanac whose seed-to-soil
table is `[50,60) ↦ 0, [7,8) ↦ 7` (all other tables present and empty)
and seed 55, the code's step is 2 — the distance from the
*post-conversion* value 5 to the interval start 7 — while the minimum
stage distance described by the claim is 5 (the distance to the end of
the containing interval `[50,60)`). -/
theorem optimized_step_spec_counterexample :
    allPairsPresent almanacStepSpy ∧
    (almanacStepSpy.optimized_location_for_seed 55).map Prod.snd = some 2 ∧
    specStepClaim almanacStepSpy 55 = 5 ∧
    (almanacStepSpy.optimized_location_for_seed 55).map Prod.snd ≠
      some (specStepClaim almanacStepSpy 55) := by decide

/-! ## Claim C6: the worked example -/

/-- C6: parsing the worked-example fixture succeeds; the parsed almanac
has seeds `[79, 14, 55, 13]`, which pair into the ranges `(79,14)` and
`(55,13)`; the four single-seed locations are 82, 43, 86 and 35; and
the step-skipping range scan returns 46 as the minimum location over
the two ranges. -/
theorem worked_example_fixture :
    (Almanac.new exampleInput).map Almanac.seeds_to_plant = some [79, 14, 55, 13] ∧
    (Almanac.new exampleInput).map (fun a => seedPairs a.seeds_to_plant) =
      some [(79, 14), (55, 13)] ∧
    (Almanac.new exampleInput).map (fun a => a.location_for_seed 79) = some 82 ∧
    (Almanac.new exampleInput).map (fun a => a.location_for_seed 14) = some 43 ∧
    (Almanac.new exampleInput).map (fun a => a.location_for_seed 55) = some 86 ∧
    (Almanac.new exampleInput).map (fun a => a.location_for_seed 13) = some 35 ∧
    (Almanac.new exampleInput).map part2LowestLocation = some (some 46) := by decide

/-! ## Claim C3: the range scan advances and terminates -/

theorem stageStep1_pos (ranges : List MapEntry) (v : Nat) :
    ∀ step, 1 ≤ step → 1 ≤ stageStep1 ranges v step := by
  induction ranges with
  | nil => intro step h; exact h
  | cons e rest ih =>
    intro step h
    obtain ⟨r, d⟩ := e
    by_cases hc : rangeContains r v
    · simp only [stageStep1, hc, if_true]
      have hv : v < r.stop := ((rangeContains_iff r v).mp hc).2
      exact le_min h (by omega)
    · simp only [stageStep1, hc, Bool.false_eq_true, if_false]
      exact ih step h

theorem stageStep2_pos (ranges : List MapEntry) (v : Nat) :
    ∀ step, 1 ≤ step → 1 ≤ stageStep2 ranges v step := by
  induction ranges with
  | nil => intro step h; exact h
  | cons e rest ih =>
    intro step h
    obtain ⟨r, d⟩ := e
    by_cases hs : v < r.start
    · simp only [stageStep2, if_pos hs]
      exact ih _ (le_min h (by omega))
    · simp only [stageStep2, if_neg hs]
      exact ih _ h

theorem pipelineOpt_step_pos (a : Almanac) :
    ∀ ps v step w s, 1 ≤ step → pipelineOpt a ps v step = some (w, s) → 1 ≤ s := by
  intro ps
  induction ps with
  | nil =>
    intro v step w s h he
    simp only [pipelineOpt, Option.some.injEq, Prod.mk.injEq] at he
    exact he.2 ▸ h
  | cons p rest ih =>
    intro v step w s h he
    cases hm : a.maps p.1 p.2 with
    | none => simp [pipelineOpt, hm] at he
    | some ranges =>
      simp only [pipelineOpt, hm] at he
      exact ih _ _ w s (stageStep2_pos _ _ _ (stageStep1_pos _ _ _ h)) he

theorem scanLoop_isSome (a : Almanac) (hp : allPairsPresent a) (boundary : Nat) :
    ∀ fuel seed lowest, boundary ≤ seed + fuel →
      (scanLoop a boundary fuel seed lowest).isSome := by
  intro fuel
  induction fuel with
  | zero =>
    intro seed lowest h
    have hs : ¬ seed < boundary := by omega
    simp [scanLoop, hs]
  | succ fuel ih =>
    intro seed lowest h
    by_cases hs : seed < boundary
    · have hopt := pipelineOpt_isSome a (tupleWindows CONVERSIONS) hp seed U64MAX
      obtain ⟨⟨loc, step⟩, he⟩ := Option.isSome_iff_exists.mp hopt
      have hstep : 1 ≤ step :=
        pipelineOpt_step_pos a (tupleWindows CONVERSIONS) seed U64MAX loc step (by decide) he
      have he' : a.optimized_location_for_seed seed = some (loc, step) := he
      simp only [scanLoop, if_pos hs, he']
      exact ih (seed + step) _ (by omega)
    · simp [scanLoop, hs]

/-- C3: with all seven adjacent-pair tables present,
`optimized_location_for_seed` always yields a step of at least 1, and
the range-scan loop — which advances the cursor by exactly that step on
every iteration — finishes within `len` iterations for a range
`(start, len)` (the `isSome` states that the loop's iteration budget of
`len` is never exhausted). -/
theorem scan_terminates_with_positive_steps (a : Almanac) (h : allPairsPresent a) :
    (∀ seed, ∃ location step,
      a.optimized_location_for_seed seed = some (location, step) ∧ 1 ≤ step) ∧
    (∀ start len lowest, (scanLoop a (start + len) len start lowest).isSome) := by
  constructor
  · intro seed
    have hopt := pipelineOpt_isSome a (tupleWindows CONVERSIONS) h seed U64MAX
    obtain ⟨⟨loc, step⟩, he⟩ := Option.isSome_iff_exists.mp hopt
    exact ⟨loc, step, he,
      pipelineOpt_step_pos a (tupleWindows CONVERSIONS) seed U64MAX loc step (by decide) he⟩
  · intro start len lowest
    exact scanLoop_isSome a h (start + len) len start lowest (by omega)

/-- Witness for C3 at a concrete almanac and range. -/
theorem scan_terminates_with_positive_steps_witness :
    (∃ location step,
      almanacUniform.optimized_location_for_seed 0 = some (location, step) ∧ 1 ≤ step) ∧
    (scanLoop almanacUniform (0 + 5) 5 0 U64MAX).isSome :=
  ⟨(scan_terminates_with_positive_steps almanacUniform (by decide)).1 0,
   (scan_terminates_with_positive_steps almanacUniform (by decide)).2 0 5 U64MAX⟩

/-! ## Claim C1: the step-skipping scan refines exhaustive scanning -/

theorem stageStep1_le (ranges : List MapEntry) (v : Nat) :
    ∀ step, stageStep1 ranges v step ≤ step := by
  induction ranges with
  | nil => intro step; exact le_rfl
  | cons e rest ih =>
    intro step
    obtain ⟨r, d⟩ := e
    by_cases hc : rangeContains r v
    · simp only [stageStep1, hc, if_true]
      exact min_le_left _ _
    · simp only [stageStep1, hc, Bool.false_eq_true, if_false]
      exact ih step

theorem stageStep2_le (ranges : List MapEntry) (v : Nat) :
    ∀ step, stageStep2 ranges v step ≤ step := by
  induction ranges with
  | nil => intro step; exact le_rfl
  | cons e rest ih =>
    intro step
    obtain ⟨r, d⟩ := e
    by_cases hs : v < r.start
    · simp only [stageStep2, if_pos hs]
      exact le_trans (ih _) (min_le_left _ _)
    · simp only [stageStep2, if_neg hs]
      exact ih _

theorem pipelineOpt_step_le (a : Almanac) :
    ∀ ps v step w s, pipelineOpt a ps v step = some (w, s) → s ≤ step := by
  intro ps
  induction ps with
  | nil =>
    intro v step w s he
    simp only [pipelineOpt, Option.some.injEq, Prod.mk.injEq] at he
    exact he.2 ▸ le_rfl
  | cons p rest ih =>
    intro v step w s he
    cases hm : a.maps p.1 p.2 with
    | none => simp [pipelineOpt, hm] at he
    | some ranges =>
      simp only [pipelineOpt, hm] at he
      exact le_trans (ih _ _ w s he) (le_trans (stageStep2_le _ _ _) (stageStep1_le _ _ _))

theorem pipelineOpt_fst (a : Almanac) :
    ∀ ps v step w s, pipelineOpt a ps v step = some (w, s) → w = pipelineValue a ps v := by
  intro ps
  induction ps with
  | nil =>
    intro v step w s he
    simp only [pipelineOpt, Option.some.injEq, Prod.mk.injEq] at he
    simp [pipelineValue, ← he.1]
  | cons p rest ih =>
    intro v step w s he
    cases hm : a.maps p.1 p.2 with
    | none => simp [pipelineOpt, hm] at he
    | some ranges =>
      simp only [pipelineOpt, hm] at he
      rw [pipelineValue_cons]
      have hcv : a.convert_resource p.1 p.2 v = convertList ranges v := by
        unfold Almanac.convert_resource; rw [hm]
      rw [hcv]
      exact ih _ _ w s he

theorem stageStep2_le_cand (v : Nat) (e : MapEntry) :
    ∀ ranges : List MapEntry, e ∈ ranges → v < e.1.start →
      ∀ step, stageStep2 ranges v step ≤ e.1.start - v := by
  intro ranges
  induction ranges with
  | nil => intro he _ _; exact absurd he (List.not_mem_nil e)
  | cons e0 rest ih =>
    intro he hv step
    obtain ⟨r, d⟩ := e0
    rcases List.mem_cons.mp he with heq | hmem
    · subst heq
      simp only [stageStep2, if_pos hv]
      exact le_trans (stageStep2_le rest v _) (min_le_right _ _)
    · simp only [stageStep2]
      exact ih hmem hv _

theorem firstContainingEntry_stable {ranges : List MapEntry} {v d : Nat} {e : MapEntry}
    (hdis : ranges.Pairwise
      (fun e1 e2 => ∀ x, ¬(rangeContains e1.1 x ∧ rangeContains e2.1 x)))
    (hfc : firstContainingEntry ranges v = some e) (hd : d < e.1.stop - v) :
    firstContainingEntry ranges (v + d) = some e := by
  induction ranges with
  | nil => simp [firstContainingEntry] at hfc
  | cons e0 rest ih =>
    obtain ⟨hd0, hdrest⟩ := List.pairwise_cons.mp hdis
    by_cases h0 : rangeContains e0.1 v
    · simp only [firstContainingEntry, h0, if_true, Option.some.injEq] at hfc
      subst hfc
      have hv := (rangeContains_iff _ v).mp h0
      have hcv : rangeContains e0.1 (v + d) = true :=
        (rangeContains_iff _ _).mpr ⟨by omega, by omega⟩
      simp [firstContainingEntry, hcv]
    · simp only [firstContainingEntry, h0, Bool.false_eq_true, if_false] at hfc
      have hev : rangeContains e.1 v = true := firstContainingEntry_contains hfc
      have hmem : e ∈ rest := firstContainingEntry_mem hfc
      have hevi := (rangeContains_iff _ v).mp hev
      have hevd : rangeContains e.1 (v + d) = true :=
        (rangeContains_iff _ _).mpr ⟨by omega, by omega⟩
      have h0d : rangeContains e0.1 (v + d) = false := by
        by_contra hcon
        simp only [Bool.not_eq_false] at hcon
        exact hd0 e hmem (v + d) ⟨hcon, hevd⟩
      simp only [firstContainingEntry, h0d, Bool.false_eq_true, if_false]
      exact ih hdrest hfc

theorem convertList_affine {ranges : List MapEntry} {v d : Nat}
    (hdis : ranges.Pairwise
      (fun e1 e2 => ∀ x, ¬(rangeContains e1.1 x ∧ rangeContains e2.1 x)))
    (h1 : ∀ e, firstContainingEntry ranges v = some e → d < e.1.stop - v)
    (h2 : firstContainingEntry ranges v = none →
      ∀ e ∈ ranges, v < e.1.start → d < e.1.start - v) :
    convertList ranges (v + d) = convertList ranges v + d := by
  cases hfc : firstContainingEntry ranges v with
  | some e =>
    have hd := h1 e hfc
    have hstable := firstContainingEntry_stable hdis hfc hd
    rw [convertList_of_first hstable, convertList_of_first hfc]
    have hcv := (rangeContains_iff _ _).mp (firstContainingEntry_contains hfc)
    omega
  | none =>
    have hnd : firstContainingEntry ranges (v + d) = none := by
      cases hfc2 : firstContainingEntry ranges (v + d) with
      | none => rfl
      | some e' =>
        exfalso
        have he'm := firstContainingEntry_mem hfc2
        have he'c := (rangeContains_iff _ _).mp (firstContainingEntry_contains hfc2)
        have hv' := firstContainingEntry_none hfc e' he'm
        have hnot : ¬(e'.1.start ≤ v ∧ v < e'.1.stop) := by
          rw [← rangeContains_iff]; simp [hv']
        by_cases hstart : v < e'.1.start
        · have hlt := h2 hfc e' he'm hstart
          omega
        · have hstop : ¬ v < e'.1.stop := fun hh => hnot ⟨by omega, hh⟩
          omega
    rw [convertList_of_none hnd, convertList_of_none hfc]

theorem pipelineOpt_affine (a : Almanac) (hdis : tablesDisjoint a) :
    ∀ ps v step w s d, pipelineOpt a ps v step = some (w, s) → d < s →
      pipelineValue a ps (v + d) = w + d := by
  intro ps
  induction ps with
  | nil =>
    intro v step w s d he _
    simp only [pipelineOpt, Option.some.injEq, Prod.mk.injEq] at he
    simp [pipelineValue, ← he.1]
  | cons p rest ih =>
    intro v step w s d he hd
    cases hm : a.maps p.1 p.2 with
    | none => simp [pipelineOpt, hm] at he
    | some ranges =>
      simp only [pipelineOpt, hm] at he
      have hdr := hdis p.1 p.2 ranges hm
      have hsle : s ≤ stageStep2 ranges (convertList ranges v) (stageStep1 ranges v step) :=
        pipelineOpt_step_le a rest _ _ w s he
      have hstage : convertList ranges (v + d) = convertList ranges v + d := by
        apply convertList_affine hdr
        · intro e hfc
          have hs1 : stageStep1 ranges v step = min step (e.1.stop - v) := by
            rw [stageStep1_eq, hfc]
          have hs2 : stageStep2 ranges (convertList ranges v) (stageStep1 ranges v step) ≤
              stageStep1 ranges v step := stageStep2_le _ _ _
          have hle : s ≤ min step (e.1.stop - v) := by
            rw [← hs1]; exact le_trans hsle hs2
          have := le_trans hle (min_le_right _ _)
          omega
        · intro hfc e hmem hv
          have hcv : convertList ranges v = v := convertList_of_none hfc
          have hcand : stageStep2 ranges v (stageStep1 ranges v step) ≤ e.1.start - v :=
            stageStep2_le_cand v e ranges hmem hv _
          rw [hcv] at hsle
          omega
      rw [pipelineValue_cons]
      have hcvd : a.convert_resource p.1 p.2 (v + d) = convertList ranges (v + d) := by
        unfold Almanac.convert_resource; rw [hm]
      rw [hcvd, hstage]
      exact ih _ _ w s d he hd

theorem rangeMinFrom_absorb (a : Almanac) :
    ∀ m seed n acc, m ≤ n →
      (∀ t, seed ≤ t → t < seed + m → acc ≤ a.location_for_seed t) →
      rangeMinFrom a seed n acc = rangeMinFrom a (seed + m) (n - m) acc := by
  intro m
  induction m with
  | zero => intro seed n acc _ _; simp
  | succ m ih =>
    intro seed n acc hmn hmin
    cases n with
    | zero => omega
    | succ n' =>
      have hseed : acc ≤ a.location_for_seed seed := hmin seed le_rfl (by omega)
      simp only [rangeMinFrom]
      rw [if_neg (by omega)]
      rw [ih (seed + 1) n' acc (by omega)
        (fun t ht1 ht2 => hmin t (by omega) (by omega))]
      have e1 : seed + 1 + m = seed + (m + 1) := by omega
      have e2 : n' - m = n' + 1 - (m + 1) := by omega
      rw [e1, e2]

theorem scanLoop_of_ge (a : Almanac) (boundary fuel seed lowest : Nat)
    (h : ¬ seed < boundary) : scanLoop a boundary fuel seed lowest = some lowest := by
  cases fuel <;> simp [scanLoop, h]

theorem scanLoop_eq_rangeMin (a : Almanac) (hp : allPairsPresent a) (hdis : tablesDisjoint a)
    (boundary : Nat) :
    ∀ fuel seed lowest, boundary ≤ seed + fuel →
      scanLoop a boundary fuel seed lowest =
        some (rangeMinFrom a seed (boundary - seed) lowest) := by
  intro fuel
  induction fuel with
  | zero =>
    intro seed lowest h
    have hs : ¬ seed < boundary := by omega
    have hz : boundary - seed = 0 := by omega
    rw [hz]
    simp [scanLoop, hs, rangeMinFrom]
  | succ fuel ih =>
    intro seed lowest h
    by_cases hs : seed < boundary
    · obtain ⟨⟨loc, step⟩, he⟩ := Option.isSome_iff_exists.mp
        (pipelineOpt_isSome a (tupleWindows CONVERSIONS) hp seed U64MAX)
      have hstep : 1 ≤ step :=
        pipelineOpt_step_pos a (tupleWindows CONVERSIONS) seed U64MAX loc step (by decide) he
      have hloc : loc = a.location_for_seed seed :=
        pipelineOpt_fst a (tupleWindows CONVERSIONS) seed U64MAX loc step he
      have haff : ∀ dd, dd < step → a.location_for_seed (seed + dd) = loc + dd :=
        fun dd hdd =>
          pipelineOpt_affine a hdis (tupleWindows CONVERSIONS) seed U64MAX loc step dd he hdd
      have he' : a.optimized_location_for_seed seed = some (loc, step) := he
      simp only [scanLoop, if_pos hs, he']
      set acc' := if loc < lowest then loc else lowest with hacc
      have hacc_le : acc' ≤ loc := by rw [hacc]; split <;> omega
      have hbs : boundary - seed = (boundary - seed - 1) + 1 := by omega
      rw [hbs]
      simp only [rangeMinFrom]
      rw [← hloc]
      rw [← hacc]
      set k := min step (boundary - seed) with hk
      have hkls : k ≤ step := min_le_left _ _
      have hklb : k ≤ boundary - seed := min_le_right _ _
      have hk1 : 1 ≤ k := le_min hstep (by omega)
      rw [rangeMinFrom_absorb a (k - 1) (seed + 1) (boundary - seed - 1) acc' (by omega)
        (by
          intro t ht1 ht2
          have hdd : t - seed < step := by omega
          have hval := haff (t - seed) hdd
          have ht' : seed + (t - seed) = t := by omega
          rw [ht'] at hval
          rw [hval]
          omega)]
      have e1 : seed + 1 + (k - 1) = seed + k := by omega
      have e2 : boundary - seed - 1 - (k - 1) = boundary - seed - k := by omega
      rw [e1, e2]
      by_cases hcase : seed + step < boundary
      · have hkk : k = step := Nat.min_eq_left (by omega)
        rw [hkk]
        have hrec := ih (seed + step) acc' (by omega)
        have e3 : boundary - (seed + step) = boundary - seed - step := by omega
        rw [e3] at hrec
        exact hrec
      · have hkk : k = boundary - seed := Nat.min_eq_right (by omega)
        rw [hkk]
        rw [scanLoop_of_ge a boundary fuel (seed + step) acc' hcase]
        have e4 : boundary - seed - (boundary - seed) = 0 := by omega
        rw [e4]
        rfl
    · have hz : boundary - seed = 0 := by omega
      rw [hz]
      simp [scanLoop, hs, rangeMinFrom]

/-- C1 (amended): for every almanac whose seven adjacent-pair tables are
all present and whose tables have pairwise non-overlapping source
intervals, the step-skipping search over a seed range `(start, len)`
returns exactly the minimum of `location_for_seed` over
`[start, start + len)` as computed by exhaustive per-value scanning
(both scans track the minimum starting from the `u64::MAX` sentinel). -/
theorem minLocation_step_scan_eq_exhaustive (a : Almanac) (start len : Nat)
    (hp : allPairsPresent a) (hdis : tablesDisjoint a) :
    minLocationForRange a start len = some (rangeMinFrom a start len U64MAX) := by
  have h := scanLoop_eq_rangeMin a hp hdis (start + len) len start U64MAX (by omega)
  have e : start + len - start = len := by omega
  rw [e] at h
  exact h

/-- Witness for the amended C1 at a concrete almanac and range. -/
theorem minLocation_step_scan_eq_exhaustive_witness :
    minLocationForRange almanacUniform 0 3 = some (rangeMinFrom almanacUniform 0 3 U64MAX) :=
  minLocation_step_scan_eq_exhaustive almanacUniform 0 3 (by decide)
    (by
      intro s d ranges hm
      simp only [almanacUniform] at hm
      cases hm
      simp)

/-- Counterexample to C1 as stated: on an almanac whose seed-to-soil
table holds the overlapping intervals `[10,20) ↦ 0` and
`[0,100) ↦ 1000` (in that order; all seven tables present), the
step-skipping search over the range `(5, 6)` reports 1005, while the
true minimum over seeds 5..10 is 0 (reached at seed 10): the step of 95
computed at seed 5 skips over the point where the first-match interval
changes. -/
theorem minLocation_step_scan_counterexample :
    allPairsPresent almanacOverlap ∧
    minLocationForRange almanacOverlap 5 6 = some 1005 ∧
    rangeMinFrom almanacOverlap 5 6 U64MAX = 0 ∧
    minLocationForRange almanacOverlap 5 6 ≠
      some (rangeMinFrom almanacOverlap 5 6 U64MAX) := by decide

/-! ## Claim C8: when parsing fails -/

theorem stripLit_eq {p l r : List Char} (h : stripLit p l = some r) : l = p ++ r := by
  induction p generalizing l with
  | nil =>
    simp only [stripLit, Option.some.injEq] at h
    simp [h]
  | cons c cs ih =>
    cases l with
    | nil => simp [stripLit] at h
    | cons c0 l0 =>
      by_cases hc : c0 = c
      · simp only [stripLit, if_pos hc] at h
        rw [hc]
        simpa using ih h
      · simp [stripLit, hc] at h

theorem seedsRest_shape {l rest : List Char} (h : seedsRest l = some rest) :
    l = String.toList "seeds: " ++ rest := by
  unfold seedsRest at h
  split at h
  · exact absurd h (by simp)
  · rename_i r0 hs
    split at h
    · simp only [Option.some.injEq] at h
      subst h
      exact stripLit_eq hs
    · exact absurd h (by simp)

theorem parseMapHeader_seeds (rest : List Char) :
    parseMapHeader (String.toList "seeds: " ++ rest) = none := by
  show parseMapHeader ('s' :: 'e' :: 'e' :: 'd' :: 's' :: ':' :: ' ' :: rest) = none
  simp [parseMapHeader, spanP, isLowerChar, stripLit]

theorem rowCaptures_seeds (rest : List Char) :
    rowCaptures (String.toList "seeds: " ++ rest) = none := by
  show rowCaptures ('s' :: 'e' :: 'e' :: 'd' :: 's' :: ':' :: ' ' :: rest) = none
  simp [rowCaptures, spanP, isDigitChar]

theorem parseU64_isSome (t : List Char) :
    (parseU64 t).isSome = decide (digitsToNat t < 2 ^ 64) := by
  unfold parseU64
  split <;> rename_i h
  · have h' : decide (digitsToNat t < 2 ^ 64) = true := decide_eq_true h
    simp only [h', Option.isSome_some]
  · have h' : decide (digitsToNat t < 2 ^ 64) = false := decide_eq_false h
    simp only [h', Option.isSome_none]

theorem parseU64List_isSome :
    ∀ ts : List (List Char),
      (parseU64List ts).isSome = ts.all (fun t => decide (digitsToNat t < 2 ^ 64)) := by
  intro ts
  induction ts with
  | nil => simp [parseU64List]
  | cons t ts ih =>
    have hcons : (parseU64List (t :: ts)).isSome =
        ((parseU64 t).isSome && (parseU64List ts).isSome) := by
      cases hpt : parseU64 t <;> cases hts : parseU64List ts <;>
        simp [parseU64List, hpt, hts]
    rw [hcons, List.all_cons, ← parseU64_isSome, ← ih]

theorem processLine_classifies (st : PState) (l : List Char) :
    (processLine st l).map PState.current = lineOkAmended st.current l := by
  by_cases hl : l = []
  · simp [processLine, lineOkAmended, hl]
  · simp only [processLine, lineOkAmended, if_neg hl]
    cases hsr : seedsRest l with
    | some rest =>
      have hshape : seedsShape l = true := by simp [seedsShape, hsr]
      rw [hshape]
      simp only [if_true]
      cases hps : parseU64List (splitTokens rest) with
      | some ns =>
        have hall : (splitTokens rest).all (fun t => decide (digitsToNat t < 2 ^ 64)) = true := by
          rw [← parseU64List_isSome, hps]; rfl
        simp only [parseSeedsLine, hsr, hps, seedsInRange, hall, if_true, Option.map_some']
      | none =>
        have hall : (splitTokens rest).all (fun t => decide (digitsToNat t < 2 ^ 64)) = false := by
          rw [← parseU64List_isSome, hps]; rfl
        have hl2 := seedsRest_shape hsr
        have hheader : parseMapHeader l = none := by rw [hl2]; exact parseMapHeader_seeds rest
        have hrow : rowCaptures l = none := by rw [hl2]; exact rowCaptures_seeds rest
        simp only [parseSeedsLine, hsr, hps, hheader, hrow, parseMapRow, seedsInRange, hall,
          Bool.false_eq_true, if_false, Option.map_none']
    | none =>
      have hshape : seedsShape l = false := by simp [seedsShape, hsr]
      rw [hshape]
      simp only [Bool.false_eq_true, if_false, parseSeedsLine, hsr]
      cases hph : parseMapHeader l with
      | some sd =>
        obtain ⟨src, dst⟩ := sd
        cases hps : parseResource src <;> cases hpd : parseResource dst <;>
          simp [hph, hps, hpd]
      | none =>
        simp only [hph]
        cases hrc : rowCaptures l with
        | some t3 =>
          obtain ⟨d1, d2, d3⟩ := t3
          have hrs : rowShape l = true := by simp [rowShape, hrc]
          have hri : rowInRange l =
              (decide (digitsToNat d1 < 2 ^ 64) && decide (digitsToNat d2 < 2 ^ 64) &&
                decide (digitsToNat d3 < 2 ^ 64)) := by
            simp [rowInRange, hrc]
          rw [hrs]
          simp only [if_true, hri]
          by_cases h1 : digitsToNat d1 < 2 ^ 64 <;>
            by_cases h2 : digitsToNat d2 < 2 ^ 64 <;>
              by_cases h3 : digitsToNat d3 < 2 ^ 64 <;>
                simp only [parseMapRow, hrc, parseU64, h1, h2, h3, if_true, if_false,
                  decide_eq_true_eq] <;>
                  try (cases hcur : st.current with
                       | none => simp [hcur, h1, h2, h3]
                       | some sd => obtain ⟨s2, d2'⟩ := sd; simp [hcur, h1, h2, h3])
        | none =>
          have hrs : rowShape l = false := by simp [rowShape, hrc]
          simp [parseMapRow, hrc, hrs]

theorem parseLines_classifies :
    ∀ (lines : List (List Char)) (st : PState),
      (parseLines st lines).isSome = goodInputAmended st.current lines := by
  intro lines
  induction lines with
  | nil => intro st; simp [parseLines, goodInputAmended]
  | cons l rest ih =>
    intro st
    have hline := processLine_classifies st l
    cases hpl : processLine st l with
    | none =>
      rw [hpl] at hline
      simp only [Option.map_none'] at hline
      simp [parseLines, hpl, goodInputAmended, ← hline]
    | some st2 =>
      rw [hpl] at hline
      simp only [Option.map_some'] at hline
      simp only [parseLines, hpl, goodInputAmended, ← hline]
      exact ih st2

/-- C8 (amended): `Almanac::new` produces an almanac exactly when every
line is blank, a seeds declaration, a map header naming two recognized
resource kinds, or a three-integer data row with an active kind pair
(set by the last header, cleared by blank lines) — with the amendment
that every integer of a seeds declaration or data row must also fit in
64 bits.  Equivalently, it errors exactly when some line violates these
conditions; in particular a mapping-section line with fewer than three
integers matches no shape and is an error. -/
theorem parse_fails_iff_bad_line_amended (input : List String) :
    (Almanac.new input).isSome = goodInputAmended none (input.map String.toList) := by
  have h := parseLines_classifies (input.map String.toList) ⟨[], fun _ _ => none, none⟩
  unfold Almanac.new
  cases hp : parseLines ⟨[], fun _ _ => none, none⟩ (input.map String.toList) with
  | none => rw [hp] at h; simpa using h
  | some st => rw [hp] at h; simpa using h

/-- Counterexample to C8 as stated: the single-line input
`seeds: 18446744073709551616` matches the seeds-declaration shape (so
none of the claim's error conditions holds), yet `Almanac::new` fails,
because `18446744073709551616 = 2^64` does not fit in a `u64`. -/
theorem parse_overflow_counterexample :
    (Almanac.new ["seeds: 18446744073709551616"]).isSome = false ∧
    goodInputClaim none
      ((["seeds: 18446744073709551616"] : List String).map String.toList) = true := by
  decide

end Advent2023
